import Mathlib

set_option autoImplicit false

/-!
Shallow embedding of `src/vue-property-decorator.ts` (version 7.3.0).

The file models the five declarative registrars (`Inject`, `Provide`, `Model`,
`Prop`, `Watch`) as functions from a component-options record to a
component-options record, and the behavioural `Emit` wrapper as a function
computing the emissions produced by one call of the wrapped method.

JavaScript values are modelled by the inductive `JsVal`; the promise-like
cases carry their eventual settlement so that the deferred emission can be
expressed as data.  Machine details that the claims do not touch (symbols as
keys, exotic objects) are not modelled.
-/

namespace VPD

/-- Model of the JavaScript values the claims touch.  A promise or a
then-able object carries its eventual settlement (resolution or rejection)
as data, so that behaviour after settlement can be stated. -/
inductive JsVal where
  | undefVal
  | nullV
  | boolV (b : Bool)
  | num (n : Int)
  | str (s : String)
  | promiseResolved (v : JsVal)
  | promiseRejected (e : JsVal)
  | thenObjResolved (v : JsVal)
  | thenObjRejected (e : JsVal)
  | plainObj
  deriving DecidableEq, Repr

/-- Lookup in a JavaScript object modelled as an insertion-ordered
association list. -/
def assocLookup {α : Type} : List (String × α) → String → Option α
  | [], _ => none
  | (k₁, v) :: rest, k => if k₁ = k then some v else assocLookup rest k

/-- JavaScript property assignment `m[k] = v` on an insertion-ordered
association list: replace in place when the key exists, append otherwise. -/
def assocSet {α : Type} : List (String × α) → String → α → List (String × α)
  | [], k, v => [(k, v)]
  | (k₁, v₁) :: rest, k, v =>
    if k₁ = k then (k, v) :: rest else (k₁, v₁) :: assocSet rest k v

theorem assocLookup_assocSet_self {α : Type} (m : List (String × α)) (k : String) (v : α) :
    assocLookup (assocSet m k v) k = some v := by
  induction m with
  | nil => simp [assocSet, assocLookup]
  | cons hd tl ih =>
    obtain ⟨k₁, v₁⟩ := hd
    by_cases h : k₁ = k <;> simp [assocSet, assocLookup, h, ih]

/-- The JavaScript idiom `x || dflt` for an optional string `x`: the empty
string is falsy, so it falls through to the default. -/
def strOr (x : Option String) (dflt : String) : String :=
  match x with
  | some s => if s = "" then dflt else s
  | none => dflt

/-- Word characters of the regex `\B` boundary (no `u` flag): ASCII letters,
digits and underscore. -/
def isWordChar (c : Char) : Bool :=
  (('a' ≤ c) && (c ≤ 'z')) || (('A' ≤ c) && (c ≤ 'Z')) ||
    (('0' ≤ c) && (c ≤ '9')) || c = '_'

/-- ASCII upper-case letter, the character class `[A-Z]` of the regex. -/
def isAsciiUpper (c : Char) : Bool :=
  ('A' ≤ c) && (c ≤ 'Z')

/-- ASCII lower-casing, the effect of `toLowerCase` on the ASCII strings the
model covers. -/
def asciiLower (c : Char) : Char :=
  if isAsciiUpper c then Char.ofNat (c.toNat + 32) else c

/-- The replacement `str.replace(/\B([A-Z])/g, "-$1")`: a hyphen is inserted
before every ASCII upper-case letter standing at a non-boundary, i.e. whose
preceding character is a word character.  The boolean records whether the
previous character was a word character; it is false at the start of the
string, where `\B` cannot match. -/
def insertHyphens : Bool → List Char → List Char
  | _, [] => []
  | prevWord, c :: cs =>
    if prevWord && isAsciiUpper c then
      '-' :: c :: insertHyphens (isWordChar c) cs
    else
      c :: insertHyphens (isWordChar c) cs

/-- `hyphenate` from the source: insert hyphens at the `\B([A-Z])` matches,
then lower-case the whole result. -/
def hyphenate (s : String) : String :=
  String.mk ((insertHyphens false s.data).map asciiLower)

/-- The event name actually used by the wrapper: `event || key` where `key`
has already been hyphenated; an explicit empty name is falsy and falls back
to the hyphenated method name. -/
def eventName (event : Option String) (key : String) : String :=
  strOr event (hyphenate key)

/-- The `then` member of a value, when it is callable: native promises always
expose one, then-able objects expose one by construction, and every other
value has none.  The settlement it leads to is returned as data. -/
def thenOf : JsVal → Option (Except JsVal JsVal)
  | .promiseResolved v => some (.ok v)
  | .promiseRejected e => some (.error e)
  | .thenObjResolved v => some (.ok v)
  | .thenObjRejected e => some (.error e)
  | _ => none

/-- `isPromise` from the source:
`obj instanceof Promise || (obj && typeof obj.then === "function")`. -/
def isPromise (v : JsVal) : Bool :=
  match v with
  | .promiseResolved _ | .promiseRejected _ => true
  | w => (thenOf w).isSome

theorem isPromise_eq_isSome_thenOf (v : JsVal) : isPromise v = (thenOf v).isSome := by
  cases v <;> rfl

/-- Argument list passed to `$emit` by the inner `emit` closure: the captured
return value is prepended (`args.unshift`) unless it is strictly `undefined`. -/
def emitArgs (returnValue : JsVal) (args : List JsVal) : List JsVal :=
  if returnValue ≠ JsVal.undefVal then returnValue :: args else args

/-- One invocation of the instance emission primitive `$emit(name, ...args)`. -/
structure EmitEvent where
  name : String
  args : List JsVal
  deriving DecidableEq, Repr

/-- Observable outcome of one call of the wrapped method: the emissions fired
synchronously during the call, the emission scheduled to fire after the
returned deferred value resolves, the rejection this layer leaves unhandled,
and the value returned to the caller. -/
structure EmitterResult where
  syncEmits : List EmitEvent
  settledEmit : Option EmitEvent
  uncaughtRejection : Option JsVal
  ret : JsVal
  deriving DecidableEq, Repr

/-- The emission registered through `.then` on a promise-like return value:
it fires only when the value resolves, with the settled value in place of
the immediate return value. -/
def settledEmitOf (rv : JsVal) (name : String) (args : List JsVal) : Option EmitEvent :=
  match thenOf rv with
  | some (.ok v) => some ⟨name, emitArgs v args⟩
  | _ => none

/-- The rejection of a promise-like return value; `.then` is called with no
rejection handler, so it propagates past this layer. -/
def rejectionOf (rv : JsVal) : Option JsVal :=
  match thenOf rv with
  | some (.error e) => some e
  | _ => none

/-- One call of the replacement function `emitter` installed by `Emit`:
run the original method on the arguments, then either emit synchronously
(immediate return value) or register the emission on the returned
promise-like value.  The replacement itself returns `undefined`. -/
def emitter (event : Option String) (key : String)
    (original : List JsVal → JsVal) (args : List JsVal) : EmitterResult :=
  let name := eventName event key
  let returnValue := original args
  if isPromise returnValue then
    { syncEmits := [], settledEmit := settledEmitOf returnValue name args,
      uncaughtRejection := rejectionOf returnValue, ret := .undefVal }
  else
    { syncEmits := [⟨name, emitArgs returnValue args⟩], settledEmit := none,
      uncaughtRejection := none, ret := .undefVal }

/-- Argument of the `Inject` registrar: either an injection key or a record
`(from, default)`. -/
inductive InjectOpt where
  | key (k : String)
  | opts (src : Option String) (dflt : Option JsVal)
  deriving DecidableEq, Repr

/-- The `inject` field of the component options: absent, a mapping, or the
already-merged ordered sequence the host framework sometimes produces. -/
inductive InjectField where
  | absent
  | obj (m : List (String × InjectOpt))
  | arr (ks : List String)
  deriving DecidableEq, Repr

/-- Truthiness of an `Inject` argument: an empty-string key is falsy, a
record object is always truthy. -/
def injectTruthy : InjectOpt → Bool
  | .key k => k ≠ ""
  | .opts _ _ => true

/-- The value written by `Inject`: `options || key`. -/
def injectArg (options : Option InjectOpt) (key : String) : InjectOpt :=
  match options with
  | some o => if injectTruthy o then o else .key key
  | none => .key key

/-- The original `provide` value before this layer wraps it: absent, a
non-function value (`some` an object, `none` a falsy value), or a function
of the instance. -/
inductive ProvideOriginal where
  | absent
  | staticVal (v : Option (List (String × JsVal)))
  | fnVal (f : List (String × JsVal) → Option (List (String × JsVal)))

/-- The `provide` field: either still the original value, or the wrapper
function installed by this layer, which carries its `managed` mapping from
local field name to provided key. -/
inductive ProvideField where
  | plain (p : ProvideOriginal)
  | wrapped (original : ProvideOriginal) (managed : List (String × String))

/-- One watch descriptor `(handler, deep, immediate)` as pushed by `Watch`;
the handler is the decorated method name. -/
structure WatchDescriptor where
  handler : String
  deep : Bool
  immediate : Bool
  deriving DecidableEq, Repr

/-- An existing entry under a watch path: a bare function value (the host
framework single-handler form, identified by a tag), a single descriptor
object, or an array of descriptors. -/
inductive WatchVal where
  | fnHandler (id : Nat)
  | single (d : WatchDescriptor)
  | arr (ds : List WatchDescriptor)
  deriving DecidableEq, Repr

/-- The options record of `Watch`; absent fields model the destructuring
defaults `deep = false, immediate = false`. -/
structure WatchOptions where
  deep : Option Bool
  immediate : Option Bool
  deriving DecidableEq, Repr

/-- The `model` record `(prop, event)`. -/
structure ModelRecord where
  prop : String
  event : String
  deriving DecidableEq, Repr

/-- The component options object mutated by the registrars.  `props` and
`watch` are `none` when the field is absent; prop option records are left
opaque as `JsVal`. -/
structure ComponentOptions where
  props : Option (List (String × JsVal))
  inject : InjectField
  provide : ProvideField
  watch : Option (List (String × WatchVal))
  model : Option ModelRecord

/-- A component options object with every field absent. -/
def emptyOptions : ComponentOptions :=
  { props := none, inject := .absent, provide := .plain .absent,
    watch := none, model := none }

/-- The `Inject` registrar: create the `inject` mapping when absent, then
write `inject[key] = options || key` unless `inject` is an array, in which
case nothing is written. -/
def Inject (options : Option InjectOpt) (key : String) (co : ComponentOptions) :
    ComponentOptions :=
  match co.inject with
  | .absent => { co with inject := .obj [(key, injectArg options key)] }
  | .obj m => { co with inject := .obj (assocSet m key (injectArg options key)) }
  | .arr _ => co

/-- Lookup of a member key in the `inject` mapping. -/
def injectLookup (co : ComponentOptions) (k : String) : Option InjectOpt :=
  match co.inject with
  | .obj m => assocLookup m k
  | _ => none

/-- The `Provide` registrar: when `provide` is not yet the wrapper function
carrying a `managed` mapping, install the wrapper over the original value
with an empty `managed` mapping; then record `managed[k] = key || k`. -/
def Provide (key : Option String) (k : String) (co : ComponentOptions) :
    ComponentOptions :=
  match co.provide with
  | .wrapped original managed =>
      { co with provide := .wrapped original (assocSet managed k (strOr key k)) }
  | .plain p =>
      { co with provide := .wrapped p (assocSet [] k (strOr key k)) }

/-- Reading a field of the instance: a missing field is `undefined`. -/
def thisGet (this : List (String × JsVal)) (i : String) : JsVal :=
  (assocLookup this i).getD .undefVal

/-- The base object of the wrapper:
`(typeof original === "function" ? original.call(this) : original) || null`. -/
def evalOriginal (p : ProvideOriginal) (this : List (String × JsVal)) :
    Option (List (String × JsVal)) :=
  match p with
  | .absent => none
  | .staticVal v => v
  | .fnVal f => f this

/-- The object produced by one call of the wrapper: its own properties and
the prototype it falls back to (`none` models a null prototype). -/
structure ProvideResult where
  own : List (String × JsVal)
  proto : Option (List (String × JsVal))

/-- One call of the wrapper function installed by `Provide` on an instance:
`rv = Object.create(base || null)`, then
`for i in managed: rv[managed[i]] = this[i]`. -/
def runProvide (original : ProvideOriginal) (managed : List (String × String))
    (this : List (String × JsVal)) : ProvideResult :=
  { own := managed.foldl (fun rv e => assocSet rv e.2 (thisGet this e.1)) [],
    proto := evalOriginal original this }

/-- Property lookup on the produced object: own properties first, then the
prototype chain. -/
def provLookup (r : ProvideResult) (k : String) : Option JsVal :=
  match assocLookup r.own k with
  | some v => some v
  | none => r.proto.bind fun b => assocLookup b k

/-- The `Prop` registrar:
`(componentOptions.props || (componentOptions.props = {}))[k] = options`. -/
def PropDecorator (options : JsVal) (k : String) (co : ComponentOptions) :
    ComponentOptions :=
  { co with props := some (assocSet (co.props.getD []) k options) }

/-- The `Model` registrar: insert the prop options exactly as `Prop` does,
then write `model = (prop: k, event: event || k)`. -/
def Model (event : Option String) (options : JsVal) (k : String)
    (co : ComponentOptions) : ComponentOptions :=
  { co with props := some (assocSet (co.props.getD []) k options),
            model := some { prop := k, event := strOr event k } }

/-- Lookup of a prop name in the `props` mapping. -/
def propLookup (co : ComponentOptions) (k : String) : Option JsVal :=
  assocLookup (co.props.getD []) k

/-- The error raised by `watch[path].push` when the entry is not an array. -/
def watchPushError : String :=
  "TypeError: push is not a function"

/-- The `Watch` registrar: create the `watch` object when absent; promote a
single descriptor object under the path into a one-element array; start an
empty array when the path is absent; then push the new descriptor, which
fails when the entry is neither promoted nor an array. -/
def Watch (path : String) (options : WatchOptions) (handler : String)
    (co : ComponentOptions) : Except String ComponentOptions :=
  let deep := options.deep.getD false
  let immediate := options.immediate.getD false
  let w0 : List (String × WatchVal) := co.watch.getD []
  let w : List (String × WatchVal) :=
    match assocLookup w0 path with
    | some (.single d) => assocSet w0 path (.arr [d])
    | none => assocSet w0 path (.arr [])
    | _ => w0
  match assocLookup w path with
  | some (.arr ds) =>
      .ok { co with
              watch := some (assocSet w path (.arr (ds ++ [⟨handler, deep, immediate⟩]))) }
  | _ => .error watchPushError

/-- The entry under a path after a registrar run, `none` when the run failed
or the path is absent. -/
def watchOf (r : Except String ComponentOptions) (p : String) : Option WatchVal :=
  match r with
  | .ok c => assocLookup (c.watch.getD []) p
  | .error _ => none

/-- Whether the previous character, when there is one, is a word character. -/
def prevIsWord (prev : Option Char) : Bool :=
  match prev with
  | some p => isWordChar p
  | none => false

/-- Hyphen-case conversion written from the amended specification text, in a
single pass: an upper-case letter whose predecessor is a word character
becomes a hyphen followed by its lower-case form, and every other character,
the leading one included, is lower-cased in place. -/
def hyphenateSpecGo : Option Char → List Char → List Char
  | _, [] => []
  | prev, c :: cs =>
    (if isAsciiUpper c && prevIsWord prev then ['-', asciiLower c]
     else [asciiLower c]) ++ hyphenateSpecGo (some c) cs

/-- Single-pass hyphen-case conversion following the amended specification. -/
def hyphenateSpec (s : String) : String :=
  String.mk (hyphenateSpecGo none s.data)

theorem insertHyphens_map_lower (cs : List Char) :
    ∀ prev : Option Char,
      (insertHyphens (prevIsWord prev) cs).map asciiLower = hyphenateSpecGo prev cs := by
  induction cs with
  | nil => intro prev; rfl
  | cons c cs ih =>
    intro prev
    by_cases h : (isAsciiUpper c && prevIsWord prev) = true
    · have hw : prevIsWord (some c) = isWordChar c := rfl
      have ha : asciiLower '-' = '-' := rfl
      simp only [insertHyphens, hyphenateSpecGo, Bool.and_comm, h, if_pos]
      simp only [Bool.and_comm (prevIsWord prev) (isAsciiUpper c)] at h
      simp [h, List.map, ha, ← hw, ih (some c)]
    · simp only [insertHyphens, hyphenateSpecGo, Bool.and_comm, h, if_neg]
      simp only [Bool.and_comm (prevIsWord prev) (isAsciiUpper c)] at h
      simp [h, List.map, ← show prevIsWord (some c) = isWordChar c from rfl, ih (some c)]

theorem hyphenate_eq_spec (s : String) : hyphenate s = hyphenateSpec s :=
  congrArg String.mk (insertHyphens_map_lower s.data none)

/-- C1: a method wrapped by `Emit` with no explicit event name and returning
an immediate (non-promise) value emits synchronously, exactly once, under the
hyphenated method name; the return value is prepended to the call arguments
unless it is `undefined`, in which case only the call arguments are passed.
No emission is deferred. -/
theorem emit_immediate_sync (key : String) (original : List JsVal → JsVal)
    (args : List JsVal) (h : isPromise (original args) = false) :
    (emitter none key original args).syncEmits =
      [{ name := hyphenate key,
         args := if original args = JsVal.undefVal then args
                 else original args :: args }] ∧
    (emitter none key original args).settledEmit = none := by
  by_cases hu : original args = JsVal.undefVal
  · rw [hu] at h
    simp [emitter, hu, h, eventName, strOr, emitArgs]
  · simp [emitter, h, eventName, strOr, emitArgs, hu]

/-- C1 witness: a method named `doThing` returning `5`, called with `(1, 2)`,
emits `emit("do-thing", 5, 1, 2)` synchronously. -/
theorem emit_immediate_sync_witness :
    (emitter none "doThing" (fun _ => JsVal.num 5) [JsVal.num 1, JsVal.num 2]).syncEmits =
      [{ name := "do-thing", args := [JsVal.num 5, JsVal.num 1, JsVal.num 2] }] ∧
    (emitter none "doThing" (fun _ => JsVal.num 5) [JsVal.num 1, JsVal.num 2]).settledEmit =
      none := by
  have h := emit_immediate_sync "doThing" (fun _ => JsVal.num 5)
    [JsVal.num 1, JsVal.num 2] (by decide)
  exact ⟨h.1.trans (by decide), h.2⟩

/-- C2: when the return value is promise-like (a native promise or an object
with a callable `then` member, i.e. `thenOf` is defined), nothing is emitted
synchronously; on resolution the emission fires with the settled value in
place of the return value, and on rejection no emission fires and the
rejection is left unhandled by this layer. -/
theorem emit_deferred_after_settle (event : Option String) (key : String)
    (original : List JsVal → JsVal) (args : List JsVal) (o : Except JsVal JsVal)
    (h : thenOf (original args) = some o) :
    (emitter event key original args).syncEmits = [] ∧
    (emitter event key original args).settledEmit =
      (match o with
       | .ok v => some { name := eventName event key,
                         args := if v = JsVal.undefVal then args else v :: args }
       | .error _ => none) ∧
    (emitter event key original args).uncaughtRejection =
      (match o with
       | .ok _ => none
       | .error e => some e) := by
  have hp : isPromise (original args) = true := by
    rw [isPromise_eq_isSome_thenOf, h]; rfl
  refine ⟨by simp [emitter, hp], ?_, ?_⟩ <;>
    cases o with
    | ok v =>
      by_cases hu : v = JsVal.undefVal <;>
        simp [emitter, hp, settledEmitOf, rejectionOf, h, emitArgs, hu]
    | error e => simp [emitter, hp, settledEmitOf, rejectionOf, h]

/-- C2 witness: a method returning a promise resolving to `"ok"` defers the
emission of `("save", "ok", 3)` until settlement, and a method returning a
rejecting promise emits nothing while the rejection passes through. -/
theorem emit_deferred_after_settle_witness :
    (emitter none "save" (fun _ => JsVal.promiseResolved (JsVal.str "ok"))
        [JsVal.num 3]).syncEmits = [] ∧
    (emitter none "save" (fun _ => JsVal.promiseResolved (JsVal.str "ok"))
        [JsVal.num 3]).settledEmit =
      some { name := "save", args := [JsVal.str "ok", JsVal.num 3] } ∧
    (emitter none "fail" (fun _ => JsVal.promiseRejected (JsVal.str "err"))
        []).settledEmit = none ∧
    (emitter none "fail" (fun _ => JsVal.promiseRejected (JsVal.str "err"))
        []).uncaughtRejection = some (JsVal.str "err") := by
  have hok := emit_deferred_after_settle none "save"
    (fun _ => JsVal.promiseResolved (JsVal.str "ok")) [JsVal.num 3]
    (Except.ok (JsVal.str "ok")) rfl
  have herr := emit_deferred_after_settle none "fail"
    (fun _ => JsVal.promiseRejected (JsVal.str "err")) []
    (Except.error (JsVal.str "err")) rfl
  exact ⟨hok.1, hok.2.1.trans (by decide), herr.2.1.trans (by decide), herr.2.2⟩

/-- C3 counterexample to the claim as stated: the source lower-cases the
whole string, so the leading character is affected, and an explicit empty
event name is falsy, so it is not used as-is. -/
theorem hyphenate_leading_char_cex :
    hyphenate "DoThing" = "do-thing" ∧ hyphenate "DoThing" ≠ "Do-thing" ∧
    eventName (some "") "doThing" = "do-thing" ∧ eventName (some "") "doThing" ≠ "" := by
  refine ⟨by decide, by decide, by decide, by decide⟩

/-- C3 amended: the default event name inserts a hyphen before each
upper-case letter preceded by a word character and then lower-cases the
whole name, the leading character included (the two-pass source computation
equals the single-pass statement of the amended claim); an explicit
non-empty event name is used as-is, while an absent or empty one falls back
to the hyphenated method name. -/
theorem hyphenate_amended :
    (∀ s : String, hyphenate s = hyphenateSpec s) ∧
    (∀ e k : String, e ≠ "" → eventName (some e) k = e) ∧
    (∀ k : String, eventName (some "") k = hyphenate k) ∧
    (∀ k : String, eventName none k = hyphenate k) := by
  refine ⟨hyphenate_eq_spec, ?_, fun k => rfl, fun k => rfl⟩
  intro e k he
  simp [eventName, strOr, he]

/-- C3 witness: the amended statement applied at concrete inputs. -/
theorem hyphenate_amended_witness :
    hyphenate "fooBarBaz" = hyphenateSpec "fooBarBaz" ∧
    eventName (some "my-event") "fooBar" = "my-event" ∧
    eventName (some "") "fooBar" = hyphenate "fooBar" ∧
    eventName none "fooBar" = hyphenate "fooBar" :=
  ⟨hyphenate_amended.1 "fooBarBaz",
   hyphenate_amended.2.1 "my-event" "fooBar" (by decide),
   hyphenate_amended.2.2.1 "fooBar",
   hyphenate_amended.2.2.2 "fooBar"⟩

/-- C6: when the `inject` field is a mapping (or absent, in which case the
mapping is created), `Inject` with no argument writes the member key itself
and `Inject` with a `(from, default)` record writes that record; when the
`inject` field is an ordered sequence, the registrar leaves the options
untouched. -/
theorem inject_mapping_and_array (k : String) (src : Option String)
    (dflt : Option JsVal) (options : Option InjectOpt) (co : ComponentOptions)
    (m : List (String × InjectOpt)) (ks : List String) :
    (co.inject = InjectField.obj m →
        injectLookup (Inject none k co) k = some (.key k) ∧
        injectLookup (Inject (some (.opts src dflt)) k co) k = some (.opts src dflt)) ∧
    (co.inject = InjectField.arr ks → Inject options k co = co) := by
  constructor
  · intro h
    constructor <;>
      simp [Inject, h, injectLookup, injectArg, injectTruthy, assocLookup_assocSet_self]
  · intro h
    simp [Inject, h]

/-- C6 witness: both the mapping case and the sequence case at concrete
component options. -/
theorem inject_mapping_and_array_witness :
    injectLookup (Inject none "foo" { emptyOptions with inject := .obj [] }) "foo" =
      some (.key "foo") ∧
    injectLookup (Inject (some (.opts (some "bar") (some (JsVal.num 0)))) "foo"
        { emptyOptions with inject := .obj [] }) "foo" =
      some (.opts (some "bar") (some (JsVal.num 0))) ∧
    Inject (some (.key "x")) "foo" { emptyOptions with inject := .arr ["z"] } =
      { emptyOptions with inject := .arr ["z"] } := by
  have h := inject_mapping_and_array "foo" (some "bar") (some (JsVal.num 0))
    (some (.key "x")) { emptyOptions with inject := .arr ["z"] } [] ["z"]
  have h₂ := inject_mapping_and_array "foo" (some "bar") (some (JsVal.num 0))
    (some (.key "x")) { emptyOptions with inject := .obj [] } [] ["z"]
  exact ⟨(h₂.1 rfl).1, (h₂.1 rfl).2, h.2 rfl⟩

/-- C7: applying the `Prop` registrar to options with no `props` field
creates the mapping holding exactly the new entry, and applying it twice for
the same key leaves the second record only. -/
theorem prop_insert_last_wins (k : String) (o o₂ : JsVal) (co c : ComponentOptions)
    (h : co.props = none) :
    (PropDecorator o k co).props = some [(k, o)] ∧
    propLookup (PropDecorator o₂ k (PropDecorator o k c)) k = some o₂ := by
  constructor
  · simp [PropDecorator, h, assocSet]
  · simp [PropDecorator, propLookup, assocLookup_assocSet_self]

/-- C7 witness: the creation case and the double-registration case at
concrete inputs. -/
theorem prop_insert_last_wins_witness :
    (PropDecorator (JsVal.num 1) "msg" emptyOptions).props =
      some [("msg", JsVal.num 1)] ∧
    propLookup (PropDecorator (JsVal.num 2) "msg"
        (PropDecorator (JsVal.num 1) "msg" emptyOptions)) "msg" =
      some (JsVal.num 2) := by
  have h := prop_insert_last_wins "msg" (JsVal.num 1) (JsVal.num 2)
    emptyOptions emptyOptions rfl
  exact ⟨h.1, h.2⟩

/-- C8 counterexample to the claim as stated: a supplied empty event name is
falsy in `event || k`, so the written record carries the member key, not the
supplied name. -/
theorem model_empty_event_cex :
    (Model (some "") (JsVal.boolV true) "checked" emptyOptions).model =
      some { prop := "checked", event := "checked" } ∧
    (Model (some "") (JsVal.boolV true) "checked" emptyOptions).model ≠
      some { prop := "checked", event := "" } := by
  refine ⟨by decide, by decide⟩

/-- C8 amended: `Model` inserts the prop options into `props` exactly as
`Prop` does and writes `model = (prop : k, event : e)` where `e` is the
supplied event name when it is non-empty, and `k` itself when no event name
or an empty one is supplied; a later `Model` application overwrites the
record, so exactly one record remains. -/
theorem model_amended (event : Option String) (o : JsVal) (k : String)
    (co : ComponentOptions) :
    (Model event o k co).props = (PropDecorator o k co).props ∧
    (event = none → (Model event o k co).model = some { prop := k, event := k }) ∧
    (∀ e, event = some e → e ≠ "" →
        (Model event o k co).model = some { prop := k, event := e }) ∧
    (event = some "" → (Model event o k co).model = some { prop := k, event := k }) ∧
    (∀ e₂ o₂ k₂, (Model e₂ o₂ k₂ (Model event o k co)).model =
        some { prop := k₂, event := strOr e₂ k₂ }) := by
  refine ⟨rfl, ?_, ?_, ?_, fun e₂ o₂ k₂ => rfl⟩
  · intro h; simp [Model, h, strOr]
  · intro e h he; simp [Model, h, strOr, he]
  · intro h; simp [Model, h, strOr]

/-- C8 witness: the amended statement applied at concrete inputs, including
the overwrite by a second application. -/
theorem model_amended_witness :
    (Model (some "change") (JsVal.num 7) "checked" emptyOptions).props =
      (PropDecorator (JsVal.num 7) "checked" emptyOptions).props ∧
    (Model none (JsVal.num 7) "checked" emptyOptions).model =
      some { prop := "checked", event := "checked" } ∧
    (Model (some "change") (JsVal.num 7) "checked" emptyOptions).model =
      some { prop := "checked", event := "change" } ∧
    (Model (some "input") (JsVal.num 8) "value"
        (Model (some "change") (JsVal.num 7) "checked" emptyOptions)).model =
      some { prop := "value", event := "input" } := by
  have h₁ := model_amended (some "change") (JsVal.num 7) "checked" emptyOptions
  have h₂ := model_amended none (JsVal.num 7) "checked" emptyOptions
  exact ⟨h₁.1, h₂.2.1 rfl, h₁.2.2.1 "change" rfl (by decide),
    (h₁.2.2.2.2 (some "input") (JsVal.num 8) "value").trans (by decide)⟩

/-- C4: two `Provide` applications, field `a` under explicit key `x` and
field `b` under its own name, produce one wrapper over the original provide
value whose `managed` mapping holds both entries; invoking it on an instance
with `a = 1, b = 2` yields an object exposing `x : 1` and `b : 2` whose
prototype is the base object computed from the original provide value. -/
theorem provide_two_fields (p : ProvideOriginal) (co : ComponentOptions)
    (h : co.provide = .plain p) :
    (Provide none "b" (Provide (some "x") "a" co)).provide =
      .wrapped p [("a", "x"), ("b", "b")] ∧
    (∀ this, (runProvide p [("a", "x"), ("b", "b")] this).proto = evalOriginal p this) ∧
    provLookup (runProvide p [("a", "x"), ("b", "b")]
        [("a", JsVal.num 1), ("b", JsVal.num 2)]) "x" = some (JsVal.num 1) ∧
    provLookup (runProvide p [("a", "x"), ("b", "b")]
        [("a", JsVal.num 1), ("b", JsVal.num 2)]) "b" = some (JsVal.num 2) := by
  refine ⟨?_, fun this => rfl, rfl, rfl⟩
  simp [Provide, h, strOr, assocSet]

/-- C4 witness: the wrapper, its `managed` mapping and the produced object at
a concrete original provide value. -/
theorem provide_two_fields_witness :
    (Provide none "b" (Provide (some "x") "a"
        { emptyOptions with
            provide := .plain (.staticVal (some [("base", JsVal.str "B")])) })).provide =
      .wrapped (.staticVal (some [("base", JsVal.str "B")])) [("a", "x"), ("b", "b")] ∧
    provLookup (runProvide (.staticVal (some [("base", JsVal.str "B")]))
        [("a", "x"), ("b", "b")] [("a", JsVal.num 1), ("b", JsVal.num 2)]) "x" =
      some (JsVal.num 1) ∧
    provLookup (runProvide (.staticVal (some [("base", JsVal.str "B")]))
        [("a", "x"), ("b", "b")] [("a", JsVal.num 1), ("b", JsVal.num 2)]) "b" =
      some (JsVal.num 2) := by
  have h := provide_two_fields (.staticVal (some [("base", JsVal.str "B")]))
    { emptyOptions with
        provide := .plain (.staticVal (some [("base", JsVal.str "B")])) } rfl
  exact ⟨h.1, h.2.2.1, h.2.2.2⟩

/-- C5: two `Watch` registrations under the same path, handlers `h₁` then
`h₂`, yield the ordered two-element array of descriptors with `deep` and
`immediate` defaulted to false, the path starting from an empty array when
absent; and an existing single non-array descriptor is first promoted into a
one-element array. -/
theorem watch_accumulates (p h₁ h₂ : String) (co : ComponentOptions)
    (habs : assocLookup (co.watch.getD []) p = none) :
    watchOf ((Watch p ⟨none, none⟩ h₁ co).bind (Watch p ⟨none, none⟩ h₂)) p =
      some (.arr [{ handler := h₁, deep := false, immediate := false },
                  { handler := h₂, deep := false, immediate := false }]) ∧
    (∀ (d : WatchDescriptor) (c : ComponentOptions),
        assocLookup (c.watch.getD []) p = some (.single d) →
        watchOf (Watch p ⟨none, none⟩ h₁ c) p =
          some (.arr [d, { handler := h₁, deep := false, immediate := false }])) := by
  constructor
  · simp [Watch, watchOf, habs, assocLookup_assocSet_self, Except.bind]
  · intro d c hc
    simp [Watch, watchOf, hc, assocLookup_assocSet_self]

/-- C5 witness: two registrations on fresh options accumulate in order, and
a pre-existing single descriptor is promoted before the append. -/
theorem watch_accumulates_witness :
    watchOf ((Watch "p" ⟨none, none⟩ "m1" emptyOptions).bind
        (Watch "p" ⟨none, none⟩ "m2")) "p" =
      some (.arr [{ handler := "m1", deep := false, immediate := false },
                  { handler := "m2", deep := false, immediate := false }]) ∧
    watchOf (Watch "p" ⟨none, none⟩ "m1"
        { emptyOptions with
            watch := some [("p", .single { handler := "m0", deep := true, immediate := true })] }) "p" =
      some (.arr [{ handler := "m0", deep := true, immediate := true },
                  { handler := "m1", deep := false, immediate := false }]) := by
  have h := watch_accumulates "p" "m1" "m2" emptyOptions rfl
  exact ⟨h.1, h.2 { handler := "m0", deep := true, immediate := true }
    { emptyOptions with
        watch := some [("p", .single { handler := "m0", deep := true, immediate := true })] } rfl⟩

/-- C10: when the existing entry under the path is a bare function value,
`Watch` neither promotes nor replaces it and the subsequent push raises a
runtime error instead of accumulating the descriptor. -/
theorem watch_fn_entry_error (p : String) (options : WatchOptions) (hk : String)
    (fid : Nat) (co : ComponentOptions)
    (hfn : assocLookup (co.watch.getD []) p = some (.fnHandler fid)) :
    Watch p options hk co = .error watchPushError := by
  simp [Watch, hfn]

/-- C10 witness: a function-valued entry at a concrete path makes the
registrar fail. -/
theorem watch_fn_entry_error_witness :
    Watch "p" ⟨none, none⟩ "m1"
        { emptyOptions with watch := some [("p", .fnHandler 0)] } =
      .error watchPushError :=
  watch_fn_entry_error "p" ⟨none, none⟩ "m1" 0
    { emptyOptions with watch := some [("p", .fnHandler 0)] } rfl

/-- C9: the replacement function installed by `Emit` always returns
`undefined` to its caller, whatever the original method returned. -/
theorem emitter_returns_undefined (event : Option String) (key : String)
    (original : List JsVal → JsVal) (args : List JsVal) :
    (emitter event key original args).ret = JsVal.undefVal := by
  by_cases h : isPromise (original args) <;> simp [emitter, h]

end VPD
